import Mathlib

/-!
# Verification of the CommonCrawl host-to-IP mapper resolution pipeline

A shallow embedding of the core of `src/lib.rs` (crate `cc_host_mapper`):
index ordering (`Ord for Index`, `get_newest_index`), cluster-index decoding
(`parse_idx_entry`), and locator resolution (`query_host`, `parse_time_string`,
`retrieve_ip`).

Modelling conventions:
* Rust strings are embedded as `List Char` (`RStr`), so every definition is
  executable by kernel reduction.  Rust's `str::split`, `join`, `starts_with`
  are re-implemented structurally (`splitOnChar`, `splitOnSeq`, …) with the
  exact semantics of the Rust originals (empty pieces kept, leftmost
  non-overlapping matches).  UTF-8 byte comparison of Rust `String` coincides
  with code-point comparison, which is what `cmpCharList` implements.
* Fallible library calls whose failure aborts the thread (`unwrap`,
  out-of-bounds indexing, `assert_eq!`) are modelled by an outer `Option`:
  `none` means the Rust code panics.  A soft skip or soft failure is a `some`
  carrying the skipped/empty value.
* Network I/O is abstracted by oracles in `ResolveEnv`: `parseRecord` models
  `serde_json::from_str::<IndexRecord>`, `parseIp` models
  `str::parse::<IpAddr>`, `archiveFetch` models the ranged archive GET plus
  gzip decode (returning the decompressed lines, or `none` for a transport /
  HTTP failure), and `now` models the date of `Utc::now()`.
* `chrono`'s documented semantics are modelled where the code depends on them:
  `NaiveDate::from_ymd_opt` checks real (proleptic Gregorian) calendar
  validity, and `NaiveDate::parse_from_str` succeeds only when the parsed
  fields determine a complete date (year, month *and* day), cf. the
  `ChronoParsed` model below.
-/

namespace CCMapper

/-- Rust `String` / `&str` contents, embedded as a list of code points. -/
abbrev RStr := List Char

/-- Rust `str::split(c)` for a single-character pattern: splits at every
occurrence, keeping empty pieces (so `"a,,b" → ["a","","b"]`, `"" → [""]`). -/
def splitOnChar (c : Char) : RStr → List RStr
  | [] => [[]]
  | x :: xs =>
    if x = c then [] :: splitOnChar c xs
    else
      match splitOnChar c xs with
      | [] => [[x]]
      | y :: ys => (x :: y) :: ys

/-- Worker for `splitOnSeq`; the fuel argument only makes the recursion
structural, `fuel = length of the input` always suffices. -/
def splitOnSeqAux (sep : List Char) : Nat → RStr → List RStr
  | _, [] => [[]]
  | 0, s => [s]
  | fuel + 1, x :: xs =>
    if sep.isPrefixOf (x :: xs) then
      [] :: splitOnSeqAux sep fuel ((x :: xs).drop sep.length)
    else
      match splitOnSeqAux sep fuel xs with
      | [] => [[x]]
      | y :: ys => (x :: y) :: ys

/-- Rust `str::split(sep)` for a multi-character pattern (used for `": "`):
splits at the leftmost non-overlapping occurrences, keeping empty pieces. -/
def splitOnSeq (sep : List Char) (s : RStr) : List RStr :=
  splitOnSeqAux sep s.length s

/-- Rust `Vec<&str>::join(sep)` / `format!` concatenation with separators. -/
def joinWith (sep : RStr) (parts : List RStr) : RStr :=
  match parts with
  | [] => []
  | p :: ps => p ++ (ps.map (fun q => sep ++ q)).flatten

/-- Rust `str::starts_with(p)`. -/
def rstrStarts (s p : RStr) : Bool := p.isPrefixOf s

/-- Rust `char::is_numeric`.  On the ASCII data of cluster-index keys this is
exactly "is a decimal digit"; the extra Unicode numeric categories accepted by
Rust do not occur in the embedded inputs. -/
def rustIsNumeric (c : Char) : Bool := c.isDigit

/-- Decimal value of a digit run; `none` if empty or a non-digit occurs.
This is the unsigned core of Rust's integer `FromStr`. -/
def digitsVal (cs : List Char) : Option Nat :=
  if cs = [] then none
  else if cs.all Char.isDigit then
    some (cs.foldl (fun a c => a * 10 + (c.toNat - 48)) 0)
  else none

/-- Rust signed-integer `FromStr` without the width bound: an optional single
leading sign followed by one or more ASCII digits. -/
def rustParseIntRaw (s : RStr) : Option Int :=
  match s with
  | '+' :: rest => (digitsVal rest).map Int.ofNat
  | '-' :: rest => (digitsVal rest).map (fun n => -(n : Int))
  | cs => (digitsVal cs).map Int.ofNat

/-- Rust `str::parse::<i64>()` (`Err` on overflow of the i64 range). -/
def rustParseI64 (s : RStr) : Option Int :=
  (rustParseIntRaw s).bind fun v =>
    if -(2 ^ 63) ≤ v ∧ v < 2 ^ 63 then some v else none

/-- Rust `str::parse::<i32>()`. -/
def rustParseI32 (s : RStr) : Option Int :=
  (rustParseIntRaw s).bind fun v =>
    if -(2 ^ 31) ≤ v ∧ v < 2 ^ 31 then some v else none

/-- Rust `str::parse::<u32>()`: optional `+`, digits, bounded by `2^32`. -/
def rustParseU32 (s : RStr) : Option Nat :=
  let core := match s with
    | '+' :: rest => digitsVal rest
    | cs => digitsVal cs
  core.bind fun v => if v < 2 ^ 32 then some v else none

/-! ## Dates (model of the `chrono` values the code constructs) -/

/-- A calendar date, the model of `chrono::NaiveDate` (the code only ever
formats the year-month-day part of its `DateTime<Utc>` values). -/
structure Date where
  year : Int
  month : Nat
  day : Nat
deriving DecidableEq, Repr

/-- Proleptic Gregorian leap-year rule (as used by `chrono`). -/
def isLeapYear (y : Int) : Bool := y % 4 = 0 ∧ (y % 100 ≠ 0 ∨ y % 400 = 0)

/-- Length of a month in the proleptic Gregorian calendar. -/
def daysInMonth (y : Int) (m : Nat) : Nat :=
  if m = 2 then (if isLeapYear y then 29 else 28)
  else if m = 4 ∨ m = 6 ∨ m = 9 ∨ m = 11 then 30
  else 31

/-- `chrono::NaiveDate::from_ymd_opt`: `none` exactly on invalid
month/day combinations.  (`chrono` additionally bounds `|year|` near 262000;
every year reaching this model is parsed from at most four digits and an
optional sign, far inside that bound.) -/
def fromYmdOpt (y : Int) (m d : Nat) : Option Date :=
  if 1 ≤ m ∧ m ≤ 12 ∧ 1 ≤ d ∧ d ≤ daysInMonth y m then some ⟨y, m, d⟩ else none

/-- Digit character for `n < 10`. -/
def digitChar (n : Nat) : Char := Char.ofNat (48 + n)

/-- Two-digit zero-padded decimal (chrono `%m` / `%d`). -/
def pad2 (n : Nat) : RStr := [digitChar (n / 10 % 10), digitChar (n % 10)]

/-- Four-digit zero-padded decimal (chrono `%Y` for `|year| ≤ 9999`). -/
def pad4 (n : Nat) : RStr :=
  [digitChar (n / 1000 % 10), digitChar (n / 100 % 10),
   digitChar (n / 10 % 10), digitChar (n % 10)]

/-- `date.format("%Y-%m-%d").to_string()`. -/
def formatYmd (d : Date) : RStr :=
  (if d.year < 0 then ['-'] else []) ++ pad4 d.year.natAbs
    ++ ['-'] ++ pad2 d.month ++ ['-'] ++ pad2 d.day

/-- `chrono::NaiveDate`'s `Ord` (year, then month, then day). -/
def dateCmp (a b : Date) : Ordering :=
  (compare a.year b.year).then ((compare a.month b.month).then (compare a.day b.day))

/-! ## Data model (`lib.rs` structs) -/

/-- `struct Index` (lib.rs:73): one entry of the `collinfo.json` catalog. -/
structure Index where
  id : RStr
  name : RStr
  timegate : RStr
  cdx_api : RStr
deriving DecidableEq, Repr

/-- `struct IndexHostPointer` (lib.rs:123): one decoded `cluster.idx` line. -/
structure IndexHostPointer where
  host : RStr
  timestamp : Int
  index_file_name : RStr
  range_start : Int
  range_length : Int
deriving DecidableEq, Repr

/-- `struct IndexRecord` (lib.rs:143): one CDX JSON entry
(all fields are strings in the JSON, as in the Rust struct). -/
structure IndexRecord where
  url : RStr
  mime : RStr
  mime_detected : Option RStr
  status : RStr
  digest : Option RStr
  length : RStr
  offset : RStr
  filename : RStr
deriving DecidableEq, Repr

/-- Model of `std::net::IpAddr` values (the parser itself is abstracted as an
oracle; see `ResolveEnv.parseIp`). -/
inductive IpAddr where
  | v4 : Nat → Nat → Nat → Nat → IpAddr
  | v6 : List Nat → IpAddr
deriving DecidableEq, Repr

/-- `struct MappingEntry` (lib.rs:157): the final host/date/IP product. -/
structure MappingEntry where
  host : RStr
  timestr : RStr
  ip : IpAddr
deriving DecidableEq, Repr

/-- `const BASE_URL` (lib.rs:68). -/
def BASE_URL : RStr := "https://data.commoncrawl.org".toList

/-! ## `Ord for Index` (lib.rs:92-104) and its `chrono` parse

`NaiveDate::parse_from_str(name, "%B %Y Index")` runs the format over the
input, collecting fields into chrono's `Parsed` accumulator, and then calls
`Parsed::to_naive_date`, which requires a *complete* date.  The format
`"%B %Y Index"` sets only the month (`%B`) and the year (`%Y`) — no format
item ever sets a day-of-month — so `to_naive_date` always fails with
"not enough information".  The model mirrors this two-phase structure. -/

/-- The date fields collected while running a format string (model of
`chrono::format::Parsed`; only the fields `%B %Y Index` can touch). -/
structure ChronoParsed where
  year : Option Int := none
  month : Option Nat := none
  day : Option Nat := none
deriving DecidableEq, Repr

/-- The month names matched by `%B`.  (chrono also accepts abbreviations and
is case-insensitive; that looseness is irrelevant here because any parse
result dies at the missing day-of-month, see `parsedToNaiveDate`.) -/
def monthNames : List (RStr × Nat) :=
  [("January".toList, 1), ("February".toList, 2), ("March".toList, 3),
   ("April".toList, 4), ("May".toList, 5), ("June".toList, 6),
   ("July".toList, 7), ("August".toList, 8), ("September".toList, 9),
   ("October".toList, 10), ("November".toList, 11), ("December".toList, 12)]

/-- Consume a `%B` month name from the front of the input. -/
def stripMonth (s : RStr) : Option (Nat × RStr) :=
  monthNames.findSome? fun p =>
    if rstrStarts s p.1 then some (p.2, s.drop p.1.length) else none

/-- Consume a `%Y` numeric year (optional sign, then a digit run). -/
def stripYear (s : RStr) : Option (Int × RStr) :=
  let core : RStr → Option (Nat × RStr) := fun r =>
    let digs := r.takeWhile Char.isDigit
    if digs = [] then none
    else some (digs.foldl (fun a c => a * 10 + (c.toNat - 48)) 0, r.dropWhile Char.isDigit)
  match s with
  | '-' :: r => (core r).map (fun p => (-(p.1 : Int), p.2))
  | '+' :: r => (core r).map (fun p => ((p.1 : Int), p.2))
  | r => (core r).map (fun p => ((p.1 : Int), p.2))

/-- Run the format string `"%B %Y Index"` over an index display name,
collecting parsed fields.  Note that no branch ever sets `day`. -/
def parseNameBYIndex (s : RStr) : Option ChronoParsed :=
  match stripMonth s with
  | none => none
  | some (m, r1) =>
    match r1 with
    | ' ' :: r2 =>
      match stripYear r2 with
      | none => none
      | some (y, r3) =>
        if r3 = " Index".toList then some { year := some y, month := some m } else none
    | _ => none

/-- `chrono::format::Parsed::to_naive_date`: needs year, month *and* day. -/
def parsedToNaiveDate (p : ChronoParsed) : Option Date :=
  match p.year, p.month, p.day with
  | some y, some m, some d => fromYmdOpt y m d
  | _, _, _ => none

/-- `NaiveDate::parse_from_str(name, "%B %Y Index")` (lib.rs:95-96),
with `Err` collapsed to `none`. -/
def indexNameDate (s : RStr) : Option Date :=
  (parseNameBYIndex s).bind parsedToNaiveDate

/-- Code-point comparison of one character (Rust compares `String`s by UTF-8
bytes; UTF-8 byte order equals code-point order). -/
def cmpChar (a b : Char) : Ordering := compare a.toNat b.toNat

/-- Lexicographic comparison of two embedded strings
(Rust `Ord for String`). -/
def cmpCharList : RStr → RStr → Ordering
  | [], [] => .eq
  | [], _ :: _ => .lt
  | _ :: _, [] => .gt
  | a :: as_, b :: bs =>
    match cmpChar a b with
    | .eq => cmpCharList as_ bs
    | o => o

/-- `impl Ord for Index` (lib.rs:92-104): try to parse both names as dates;
if both parse compare the dates, otherwise compare the name strings. -/
def indexCmp (a b : Index) : Ordering :=
  match indexNameDate a.name, indexNameDate b.name with
  | some date1, some date2 => dateCmp date1 date2
  | _, _ => cmpCharList a.name b.name

/-- The `le` relation induced by `indexCmp`, as used by `Vec::sort`. -/
def indexLe (a b : Index) : Bool := indexCmp a b ≠ Ordering.gt

/-- `indexLe` as a relation (for the sort below). -/
def indexLeq (a b : Index) : Prop := indexLe a b = true

instance : DecidableRel indexLeq := fun a b =>
  inferInstanceAs (Decidable (indexLe a b = true))

/-- `get_newest_index` (lib.rs:228-232) minus the network call: sort the
retrieved indices ascending and take element 0 (`none` models the
out-of-bounds panic of `indices[0]` on an empty catalog).  `Vec::sort` is the
stable sort by `Ord for Index`; because `indexLeq` is a total preorder (see
`indexLe_trans` / `indexLe_total` below) the stable sorted permutation is
unique, so the structurally recursive `List.insertionSort` — also stable —
computes exactly the list Rust's merge sort computes. -/
def get_newest_index (indices : List Index) : Option Index :=
  (List.insertionSort indexLeq indices).head?

/-! ## `parse_idx_entry` (lib.rs:238-268) -/

/-- Rust `v[0]` on a split result (a split always returns at least one
part, so the default is never taken). -/
def part0 (parts : List RStr) : RStr := parts.headD []

/-- The reversed-domain key of a cluster-index line: the part of the first
space-separated token before the first `)`, split on commas
(lib.rs:243-245). -/
def clusterKeyComponents (t : RStr) : List RStr :=
  splitOnChar ',' (part0 (splitOnChar ')' t))

/-- The host-decoding rule of `parse_idx_entry` (lib.rs:243-252): if the first
comma component is all-numeric the key is an IP literal and no host is
produced; otherwise reverse the components and join with dots. -/
def clusterHostDecode (t : RStr) : Option RStr :=
  let host_vec := clusterKeyComponents t
  if (part0 host_vec).all rustIsNumeric then none
  else some (joinWith ['.'] host_vec.reverse)

/-- `parse_idx_entry` (lib.rs:238-268).  Outer `none` = panic
(`assert_eq!(parts.len(), 5)`, `url_time[1]` indexing, or an `unwrap` on an
integer parse); `some none` = line dropped as an IP literal;
`some (some p)` = decoded locator. -/
def parse_idx_entry (index_id : RStr) (line : RStr) : Option (Option IndexHostPointer) :=
  let parts := splitOnChar '\t' line
  if parts.length = 5 then
    let url_time := splitOnChar ' ' (part0 parts)
    match url_time[1]? with
    | none => none
    | some t1 =>
      match rustParseI64 t1 with
      | none => none
      | some timestamp =>
        match clusterHostDecode (part0 url_time) with
        | none => some none
        | some host =>
          let file_name := BASE_URL ++ "/cc-index/collections/".toList ++ index_id
              ++ "/indexes/".toList ++ parts.getD 1 []
          match rustParseI64 (parts.getD 2 []), rustParseI64 (parts.getD 3 []) with
          | some rs, some rl =>
            some (some { host := host, timestamp := timestamp,
                         index_file_name := file_name,
                         range_start := rs, range_length := rl })
          | _, _ => none
  else none

/-! ## `query_host` / `retrieve_ip` / `parse_time_string` (lib.rs:305-442) -/

/-- The oracles `query_host` consumes: the JSON decoder, the IP-address
parser of the standard library, the ranged archive fetch (url, range start,
range end ↦ decompressed lines, or `none` for a transport/HTTP failure), and
the date of `Utc::now()`. -/
structure ResolveEnv where
  parseRecord : RStr → Option IndexRecord
  parseIp : RStr → Option IpAddr
  archiveFetch : RStr → Int → Int → Option (List RStr)
  now : Date

/-- `parse_time_string` (lib.rs:376-387).  Outer `none` = panic (the byte
slices `[0..=3]`, `[4..=5]`, `[6..=7]` out of range, or an `unwrap` on a
failed integer parse); on a valid calendar date the date itself, otherwise
the current date `now` (the `Utc::now()` fallback).  Rust slices bytes where
this model slices characters; the two diverge only on non-ASCII input, and
then both sides panic (a multi-byte character can neither be sliced at a
non-boundary nor parsed as part of an integer). -/
def parse_time_string (now : Date) (time_str : RStr) : Option Date :=
  if time_str.length < 8 then none
  else
    match rustParseI32 (time_str.take 4),
          rustParseU32 ((time_str.drop 4).take 2),
          rustParseU32 ((time_str.drop 6).take 2) with
    | some year, some month, some day =>
      match fromYmdOpt year month day with
      | some date => some date
      | none => some now
    | _, _, _ => none

/-- The line scan of `retrieve_ip` (lib.rs:423-439): find a line starting
with `WARC-IP-Address`, split it on `": "` and parse element `[1]` as an IP
address; on parse failure keep scanning.  Outer `none` = panic: the indexing
`[1]` is out of bounds when a matching line contains no `": "` separator. -/
def warcScan (pIp : RStr → Option IpAddr) (host timestamp_str : RStr) :
    List RStr → Option (Option MappingEntry)
  | [] => some none
  | line :: rest =>
    if rstrStarts line "WARC-IP-Address".toList then
      match (splitOnSeq ": ".toList line)[1]? with
      | none => none
      | some v =>
        match pIp v with
        | some addr => some (some ⟨host, timestamp_str, addr⟩)
        | none => warcScan pIp host timestamp_str rest
    else warcScan pIp host timestamp_str rest

/-- The end of the ranged archive request (lib.rs:397-401): the length is
capped at 901 bytes, then `end = start + length`. -/
def archiveRangeEnd (start length : Int) : Int :=
  start + (if length > 901 then 901 else length)

/-- `retrieve_ip` (lib.rs:390-442).  Outer `none` = panic (an `unwrap` on the
offset/length integer parses, or the scan's indexing panic); the `Nat`
component counts the HTTP requests the invocation performed (one ranged GET,
issued exactly when both parses succeed). -/
def retrieve_ip (env : ResolveEnv) (host timestamp_str : RStr)
    (index_record : IndexRecord) : Option (Option MappingEntry × Nat) :=
  let url := BASE_URL ++ ['/'] ++ index_record.filename
  match rustParseI64 index_record.offset with
  | none => none
  | some start =>
    match rustParseI64 index_record.length with
    | none => none
    | some length =>
      match env.archiveFetch url start (archiveRangeEnd start length) with
      | none => some (none, 1)
      | some lines => (warcScan env.parseIp host timestamp_str lines).map (fun r => (r, 1))

/-- The host-decoding rule of `query_host` (lib.rs:342-348): the part of the
first space-separated token before the first `)`, then before the first `:`,
split on commas, reversed, joined with dots.  Unlike `clusterHostDecode`
this truncates at `:` and never filters IP literals. -/
def shardHostDecode (t : RStr) : RStr :=
  let host_vec :=
    splitOnChar ',' (part0 (splitOnChar ':' (part0 (splitOnChar ')' t))))
  joinWith ['.'] host_vec.reverse

/-- The loop state of `query_host` (lib.rs:333-335) plus the request counter
`trips` (instrumentation: it sums the `Nat` component of `retrieve_ip` and is
not itself part of the Rust state). -/
structure RState where
  futures_times : List RStr
  records : List IndexRecord
  mappings : List (Option MappingEntry)
  trips : Nat
deriving DecidableEq, Repr

/-- The empty initial state of the `query_host` loop. -/
def initState : RState := ⟨[], [], [], 0⟩

/-- `fields[2..].join(" ")` (lib.rs:360): the JSON remainder of a shard line. -/
def jsonRemainder (fields : List RStr) : RStr :=
  joinWith [' '] (fields.drop 2)

/-- One iteration of the `query_host` line loop (lib.rs:337-371).  `none` =
panic (the `fields[1]` indexing, or a panic inside `parse_time_string` /
`retrieve_ip`); `some st` = the state after the iteration (unchanged when the
line is skipped). -/
def processLine (env : ResolveEnv) (pointer : IndexHostPointer)
    (st : RState) (line : RStr) : Option RState :=
  let fields := splitOnChar ' ' line
  let host := shardHostDecode (part0 fields)
  if pointer.host ≠ host then some st
  else
    match fields[1]? with
    | none => none
    | some f1 =>
      match parse_time_string env.now f1 with
      | none => none
      | some date =>
        let timestamp_str := formatYmd date
        if st.futures_times.contains timestamp_str then some st
        else
          match env.parseRecord (jsonRemainder fields) with
          | none => some st
          | some entry =>
            match retrieve_ip env host timestamp_str entry with
            | none => none
            | some (mp, k) =>
              some { futures_times := timestamp_str :: st.futures_times,
                     records := st.records ++ [entry],
                     mappings := st.mappings ++ [mp],
                     trips := st.trips + k }

/-- The `query_host` line loop folded over the decompressed shard lines. -/
def runLines (env : ResolveEnv) (pointer : IndexHostPointer) :
    RState → List RStr → Option RState
  | st, [] => some st
  | st, l :: ls =>
    match processLine env pointer st l with
    | none => none
    | some st2 => runLines env pointer st2 ls

/-- `query_host` (lib.rs:305-374) after a successful shard fetch, as a
function of the decompressed shard lines.  `none` = a panic inside the
loop. -/
def query_host (env : ResolveEnv) (pointer : IndexHostPointer)
    (lines : List RStr) : Option RState :=
  runLines env pointer initState lines

/-- `query_host` including the shard fetch: `shard = none` models a transport
error or non-success HTTP status of the ranged shard GET (lib.rs:314-328),
after which the function returns the empty vector.  The result pairs the
total number of HTTP requests performed with the returned
`Vec<Option<MappingEntry>>`. -/
def query_hostFull (env : ResolveEnv) (pointer : IndexHostPointer)
    (shard : Option (List RStr)) : Option (Nat × List (Option MappingEntry)) :=
  match shard with
  | none => some (1, [])
  | some lines =>
    (query_host env pointer lines).map (fun st => (1 + st.trips, st.mappings))

/-! ## Specification-side helpers for the resolver theorems -/

/-- The calendar-day string a shard line is bucketed under: field 1 of the
line passed through `parse_time_string` and `%Y-%m-%d` formatting. -/
def lineDate (env : ResolveEnv) (line : RStr) : Option RStr :=
  (splitOnChar ' ' line)[1]?.bind fun f1 =>
    (parse_time_string env.now f1).map formatYmd

/-- The decoded record of a shard line, provided the line passes the host
check for `pointer`, is bucketed under day `d`, and its JSON remainder
decodes. -/
def qualRecord (env : ResolveEnv) (pointer : IndexHostPointer)
    (line : RStr) (d : RStr) : Option IndexRecord :=
  let fields := splitOnChar ' ' line
  if shardHostDecode (part0 fields) = pointer.host ∧ lineDate env line = some d then
    env.parseRecord (jsonRemainder fields)
  else none

/-- The record of the first shard line that passes the host check, is
bucketed under day `d`, and decodes — the line whose archive record decides
day `d` of a resolution. -/
def firstQual (env : ResolveEnv) (pointer : IndexHostPointer)
    (lines : List RStr) (d : RStr) : Option IndexRecord :=
  lines.findSome? fun l => qualRecord env pointer l d

/-! ## Lemmas about the resolver building blocks -/

theorem warcScan_some_entry (pIp : RStr → Option IpAddr) (host tss : RStr) :
    ∀ (lines : List RStr) (m : MappingEntry),
      warcScan pIp host tss lines = some (some m) →
      m.host = host ∧ m.timestr = tss ∧
        ∃ l ∈ lines, rstrStarts l "WARC-IP-Address".toList = true ∧
          ∃ v, (splitOnSeq ": ".toList l)[1]? = some v ∧ pIp v = some m.ip := by
  intro lines
  induction lines with
  | nil => intro m h; simp [warcScan] at h
  | cons line rest ih =>
    intro m h
    unfold warcScan at h
    split at h
    · split at h
      · exact absurd h (by simp)
      · next v hv =>
        split at h
        · next addr haddr =>
          obtain ⟨rfl⟩ : ({ host := host, timestr := tss, ip := addr } : MappingEntry) = m := by
            simpa using h
          exact ⟨rfl, rfl, line, by simp, by assumption, v, hv, haddr⟩
        · obtain ⟨h1, h2, l, hl, hrest⟩ := ih m h
          exact ⟨h1, h2, l, List.mem_cons_of_mem _ hl, hrest⟩
    · obtain ⟨h1, h2, l, hl, hrest⟩ := ih m h
      exact ⟨h1, h2, l, List.mem_cons_of_mem _ hl, hrest⟩

theorem retrieve_ip_shape (env : ResolveEnv) (host tss : RStr) (r : IndexRecord)
    (mp : Option MappingEntry) (k : Nat)
    (h : retrieve_ip env host tss r = some (mp, k)) :
    k = 1 ∧ ∀ m : MappingEntry, mp = some m → m.host = host ∧ m.timestr = tss := by
  simp only [retrieve_ip] at h
  split at h
  · exact absurd h (by simp)
  · split at h
    · exact absurd h (by simp)
    · split at h
      · obtain ⟨rfl, rfl⟩ : none = mp ∧ 1 = k := by simpa using h
        exact ⟨rfl, by simp⟩
      · next lines hlines =>
        cases hscan : warcScan env.parseIp host tss lines with
        | none => rw [hscan] at h; exact absurd h (by simp)
        | some res =>
          rw [hscan] at h
          obtain ⟨rfl, rfl⟩ : res = mp ∧ 1 = k := by simpa using h
          refine ⟨rfl, fun m hm => ?_⟩
          subst hm
          obtain ⟨h1, h2, -⟩ := warcScan_some_entry env.parseIp host tss lines m hscan
          exact ⟨h1, h2⟩

theorem lineDate_eq_of (env : ResolveEnv) (l f1 : RStr) (date : Date)
    (h1 : (splitOnChar ' ' l)[1]? = some f1)
    (h2 : parse_time_string env.now f1 = some date) :
    lineDate env l = some (formatYmd date) := by
  simp [lineDate, h1, h2]

theorem qualRecord_of_not_host (env : ResolveEnv) (ptr : IndexHostPointer) (l d : RStr)
    (h : shardHostDecode (part0 (splitOnChar ' ' l)) ≠ ptr.host) :
    qualRecord env ptr l d = none := by
  simp [qualRecord, h]

theorem qualRecord_of_other_date (env : ResolveEnv) (ptr : IndexHostPointer) (l d tss : RStr)
    (hd : lineDate env l = some tss) (hne : d ≠ tss) :
    qualRecord env ptr l d = none := by
  simp only [qualRecord]
  rw [if_neg]
  rintro ⟨-, h2⟩
  rw [hd] at h2
  exact hne (by simpa using h2.symm)

theorem qualRecord_of_match (env : ResolveEnv) (ptr : IndexHostPointer) (l tss : RStr)
    (hh : shardHostDecode (part0 (splitOnChar ' ' l)) = ptr.host)
    (hd : lineDate env l = some tss) :
    qualRecord env ptr l tss = env.parseRecord (jsonRemainder (splitOnChar ' ' l)) := by
  simp [qualRecord, hh, hd]

theorem firstQual_snoc (env : ResolveEnv) (ptr : IndexHostPointer)
    (xs : List RStr) (l : RStr) (d : RStr) :
    firstQual env ptr (xs ++ [l]) d = (firstQual env ptr xs d).or (qualRecord env ptr l d) := by
  unfold firstQual
  rw [List.findSome?_append]
  cases hq : qualRecord env ptr l d <;> simp [List.findSome?, hq]

theorem firstQual_snoc_of_isSome (env : ResolveEnv) (ptr : IndexHostPointer)
    (xs : List RStr) (l : RStr) (d : RStr)
    (h : (firstQual env ptr xs d).isSome = true) :
    firstQual env ptr (xs ++ [l]) d = firstQual env ptr xs d := by
  rw [firstQual_snoc]
  obtain ⟨r, hr⟩ := Option.isSome_iff_exists.mp h
  simp [hr]

theorem firstQual_snoc_of_none (env : ResolveEnv) (ptr : IndexHostPointer)
    (xs : List RStr) (l : RStr) (d : RStr)
    (h : firstQual env ptr xs d = none) :
    firstQual env ptr (xs ++ [l]) d = qualRecord env ptr l d := by
  rw [firstQual_snoc, h, Option.none_or]

theorem contains_iff_mem {α} [BEq α] [LawfulBEq α] (l : List α) (a : α) :
    l.contains a = true ↔ a ∈ l := by
  rw [List.contains_iff_exists_mem_beq]
  constructor
  · rintro ⟨a', ha', hbeq⟩
    rwa [eq_of_beq hbeq]
  · intro h
    exact ⟨a, h, by simp⟩

/-! ## The `query_host` loop invariant -/

/-- Invariant of the `query_host` line loop after the lines `pre` have been
processed with resulting state `st`:
* the emitted entries carry pairwise distinct days,
* every emitted entry's day is registered in `futures_times`,
* every day for which some processed line qualified is registered,
* every emitted entry is the `retrieve_ip` result of the *first* processed
  line that qualified for its day,
* every emitted entry carries the locator's host,
* the archive request count equals the number of pushed mapping slots. -/
structure QInv (env : ResolveEnv) (ptr : IndexHostPointer)
    (pre : List RStr) (st : RState) : Prop where
  distinct : (st.mappings.filterMap id).Pairwise (fun a b => a.timestr ≠ b.timestr)
  datesSeen : ∀ m : MappingEntry, some m ∈ st.mappings → m.timestr ∈ st.futures_times
  seenQual : ∀ d : RStr, (firstQual env ptr pre d).isSome = true → d ∈ st.futures_times
  firstWins : ∀ m : MappingEntry, some m ∈ st.mappings →
    ∃ r, firstQual env ptr pre m.timestr = some r ∧
      retrieve_ip env ptr.host m.timestr r = some (some m, 1)
  hostEq : ∀ m : MappingEntry, some m ∈ st.mappings → m.host = ptr.host
  tripsEq : st.trips = st.mappings.length

theorem QInv_init (env : ResolveEnv) (ptr : IndexHostPointer) :
    QInv env ptr [] initState where
  distinct := by simp [initState]
  datesSeen := by simp [initState]
  seenQual := by intro d h; simp [firstQual, List.findSome?] at h
  firstWins := by simp [initState]
  hostEq := by simp [initState]
  tripsEq := rfl

/-- Carry the invariant over an iteration that leaves the state unchanged and
whose line qualifies for no day at all. -/
theorem QInv_carry (env : ResolveEnv) (ptr : IndexHostPointer) (pre : List RStr)
    (st : RState) (l : RStr) (inv : QInv env ptr pre st)
    (hq : ∀ d, qualRecord env ptr l d = none) : QInv env ptr (pre ++ [l]) st := by
  have hfq : ∀ d, firstQual env ptr (pre ++ [l]) d = firstQual env ptr pre d := by
    intro d
    rw [firstQual_snoc, hq d, Option.or_none]
  exact { distinct := inv.distinct, datesSeen := inv.datesSeen,
          seenQual := fun d h => inv.seenQual d (by rwa [hfq d] at h),
          firstWins := fun m hm => by rw [hfq]; exact inv.firstWins m hm,
          hostEq := inv.hostEq, tripsEq := inv.tripsEq }

theorem QInv_step (env : ResolveEnv) (ptr : IndexHostPointer) (pre : List RStr)
    (st : RState) (l : RStr) (st2 : RState) (inv : QInv env ptr pre st)
    (hp : processLine env ptr st l = some st2) : QInv env ptr (pre ++ [l]) st2 := by
  simp only [processLine] at hp
  split at hp
  · -- host check fails: the line is skipped
    next hhost =>
    obtain rfl : st = st2 := by simpa using hp
    exact QInv_carry env ptr pre st l inv
      (fun d => qualRecord_of_not_host env ptr l d (Ne.symm hhost))
  · next hhost =>
    have hhost2 : shardHostDecode (part0 (splitOnChar ' ' l)) = ptr.host :=
      (not_ne_iff.mp hhost).symm
    split at hp
    · exact absurd hp (by simp)
    · next f1 hf1 =>
      split at hp
      · exact absurd hp (by simp)
      · next date hdate =>
        have hld : lineDate env l = some (formatYmd date) :=
          lineDate_eq_of env l f1 date hf1 hdate
        split at hp
        · -- the day was already handled: the line is skipped
          next hcont =>
          obtain rfl : st = st2 := by simpa using hp
          have htss : formatYmd date ∈ st.futures_times :=
            (contains_iff_mem _ _).mp hcont
          refine { distinct := inv.distinct, datesSeen := inv.datesSeen,
                   seenQual := ?_, firstWins := ?_,
                   hostEq := inv.hostEq, tripsEq := inv.tripsEq }
          · intro d h
            rw [firstQual_snoc] at h
            cases hpre : firstQual env ptr pre d with
            | some r => exact inv.seenQual d (by simp [hpre])
            | none =>
              rw [hpre, Option.none_or] at h
              have hd : d = formatYmd date := by
                by_contra hne
                rw [qualRecord_of_other_date env ptr l d _ hld hne] at h
                simp at h
              rw [hd]
              exact htss
          · intro m hm
            obtain ⟨r, hr, hrip⟩ := inv.firstWins m hm
            refine ⟨r, ?_, hrip⟩
            rw [firstQual_snoc_of_isSome env ptr pre l m.timestr (by simp [hr])]
            exact hr
        · next hcont =>
          have htss : formatYmd date ∉ st.futures_times := by
            intro hmem
            exact hcont ((contains_iff_mem _ _).mpr hmem)
          split at hp
          · -- the JSON remainder does not decode: the line is skipped
            next hjson =>
            obtain rfl : st = st2 := by simpa using hp
            refine QInv_carry env ptr pre st l inv ?_
            intro d
            by_cases hd : d = formatYmd date
            · subst hd
              rw [qualRecord_of_match env ptr l _ hhost2 hld]
              exact hjson
            · exact qualRecord_of_other_date env ptr l d _ hld hd
          · next entry hjson =>
            rw [hhost2] at hp
            split at hp
            · exact absurd hp (by simp)
            · next mp k hrip =>
              obtain rfl :
                  ({ futures_times := formatYmd date :: st.futures_times,
                     records := st.records ++ [entry],
                     mappings := st.mappings ++ [mp],
                     trips := st.trips + k } : RState) = st2 := by
                simpa using hp
              obtain ⟨hk1, hmp⟩ := retrieve_ip_shape env ptr.host (formatYmd date) entry mp k hrip
              subst hk1
              have hfqpre : firstQual env ptr pre (formatYmd date) = none := by
                cases hpre : firstQual env ptr pre (formatYmd date) with
                | none => rfl
                | some r =>
                  exact absurd (inv.seenQual _ (by simp [hpre])) htss
              have hfqnew : firstQual env ptr (pre ++ [l]) (formatYmd date) = some entry := by
                rw [firstQual_snoc_of_none env ptr pre l _ hfqpre,
                    qualRecord_of_match env ptr l _ hhost2 hld]
                exact hjson
              refine { distinct := ?_, datesSeen := ?_, seenQual := ?_,
                       firstWins := ?_, hostEq := ?_, tripsEq := ?_ }
              · rw [List.filterMap_append]
                cases mp with
                | none => simpa using inv.distinct
                | some m0 =>
                  rw [List.pairwise_append]
                  refine ⟨inv.distinct, by simp, ?_⟩
                  intro a ha b hb
                  have hbm : b = m0 := by simpa using hb
                  have hsome : some a ∈ st.mappings := by
                    obtain ⟨x, hx, hxa⟩ := List.mem_filterMap.mp ha
                    obtain rfl : x = some a := by simpa using hxa
                    exact hx
                  have h1 : a.timestr ∈ st.futures_times := inv.datesSeen a hsome
                  have h2 : b.timestr = formatYmd date := by
                    rw [hbm]
                    exact (hmp m0 rfl).2
                  intro hcontra
                  rw [hcontra, h2] at h1
                  exact htss h1
              · intro m hm
                rcases List.mem_append.mp hm with hm | hm
                · exact List.mem_cons_of_mem _ (inv.datesSeen m hm)
                · obtain hmp2 : some m = mp := by simpa using hm
                  rw [(hmp m hmp2.symm).2]
                  exact List.mem_cons_self _ _
              · intro d h
                rw [firstQual_snoc] at h
                cases hpre : firstQual env ptr pre d with
                | some r => exact List.mem_cons_of_mem _ (inv.seenQual d (by simp [hpre]))
                | none =>
                  rw [hpre, Option.none_or] at h
                  have hd : d = formatYmd date := by
                    by_contra hne
                    rw [qualRecord_of_other_date env ptr l d _ hld hne] at h
                    simp at h
                  rw [hd]
                  exact List.mem_cons_self _ _
              · intro m hm
                rcases List.mem_append.mp hm with hm | hm
                · obtain ⟨r, hr, hrip2⟩ := inv.firstWins m hm
                  refine ⟨r, ?_, hrip2⟩
                  rw [firstQual_snoc_of_isSome env ptr pre l m.timestr (by simp [hr])]
                  exact hr
                · obtain hmp2 : some m = mp := by simpa using hm
                  refine ⟨entry, ?_, ?_⟩
                  · rw [(hmp m hmp2.symm).2]
                    exact hfqnew
                  · rw [(hmp m hmp2.symm).2, hmp2]
                    exact hrip
              · intro m hm
                rcases List.mem_append.mp hm with hm | hm
                · exact inv.hostEq m hm
                · obtain hmp2 : some m = mp := by simpa using hm
                  exact (hmp m hmp2.symm).1
              · simp [inv.tripsEq]

theorem QInv_run (env : ResolveEnv) (ptr : IndexHostPointer) :
    ∀ (ls pre : List RStr) (st st' : RState), QInv env ptr pre st →
      runLines env ptr st ls = some st' → QInv env ptr (pre ++ ls) st' := by
  intro ls
  induction ls with
  | nil =>
    intro pre st st' inv h
    obtain rfl : st = st' := by simpa [runLines] using h
    simpa using inv
  | cons l ls ih =>
    intro pre st st' inv h
    unfold runLines at h
    split at h
    · exact absurd h (by simp)
    · next st2 hst2 =>
      have inv2 : QInv env ptr (pre ++ [l]) st2 := QInv_step env ptr pre st l st2 inv hst2
      have := ih (pre ++ [l]) st2 st' inv2 h
      simpa using this

/-- The invariant holds of any panic-free `query_host` run. -/
theorem QInv_query (env : ResolveEnv) (ptr : IndexHostPointer)
    (lines : List RStr) (st : RState) (h : query_host env ptr lines = some st) :
    QInv env ptr lines st := by
  have := QInv_run env ptr lines [] initState st (QInv_init env ptr) h
  simpa using this

/-! ## Lemmas about the Index ordering -/

theorem cmpCharList_refl : ∀ as : RStr, cmpCharList as as = .eq := by
  intro as
  induction as with
  | nil => rfl
  | cons a as ih =>
    simp only [cmpCharList, cmpChar]
    rw [Nat.compare_eq_eq.mpr rfl]
    exact ih

theorem cmpCharList_swap : ∀ as bs : RStr, cmpCharList bs as = (cmpCharList as bs).swap := by
  intro as
  induction as with
  | nil => intro bs; cases bs <;> rfl
  | cons a as ih =>
    intro bs
    cases bs with
    | nil => rfl
    | cons b bs =>
      simp only [cmpCharList, cmpChar]
      rcases Nat.lt_trichotomy a.toNat b.toNat with h | h | h
      · rw [Nat.compare_eq_lt.mpr h, Nat.compare_eq_gt.mpr h]
        rfl
      · rw [Nat.compare_eq_eq.mpr h, Nat.compare_eq_eq.mpr h.symm]
        exact ih bs
      · rw [Nat.compare_eq_gt.mpr h, Nat.compare_eq_lt.mpr h]
        rfl

theorem cmpCharList_le_trans : ∀ as bs cs : RStr,
    cmpCharList as bs ≠ .gt → cmpCharList bs cs ≠ .gt → cmpCharList as cs ≠ .gt := by
  intro as
  induction as with
  | nil =>
    intro bs cs h1 h2
    cases cs <;> simp [cmpCharList]
  | cons a as ih =>
    intro bs cs h1 h2
    cases bs with
    | nil => exact absurd rfl h1
    | cons b bs =>
      cases cs with
      | nil => exact absurd rfl h2
      | cons c cs =>
        simp only [cmpCharList, cmpChar] at h1 h2 ⊢
        rcases Nat.lt_trichotomy a.toNat b.toNat with hab | hab | hab
        · rcases Nat.lt_trichotomy b.toNat c.toNat with hbc | hbc | hbc
          · rw [Nat.compare_eq_lt.mpr (lt_trans hab hbc)]
            simp
          · rw [Nat.compare_eq_lt.mpr (hbc ▸ hab)]
            simp
          · rw [Nat.compare_eq_gt.mpr hbc] at h2
            simp at h2
        · rw [Nat.compare_eq_eq.mpr hab] at h1
          rcases Nat.lt_trichotomy b.toNat c.toNat with hbc | hbc | hbc
          · rw [Nat.compare_eq_lt.mpr (hab ▸ hbc)]
            simp
          · rw [Nat.compare_eq_eq.mpr hbc] at h2
            rw [Nat.compare_eq_eq.mpr (hab.trans hbc)]
            exact ih bs cs h1 h2
          · rw [Nat.compare_eq_gt.mpr hbc] at h2
            simp at h2
        · rw [Nat.compare_eq_gt.mpr hab] at h1
          simp at h1

theorem parseNameBYIndex_day_none (s : RStr) (p : ChronoParsed)
    (h : parseNameBYIndex s = some p) : p.day = none := by
  unfold parseNameBYIndex at h
  split at h
  · exact absurd h (by simp)
  · split at h
    · split at h
      · exact absurd h (by simp)
      · split at h
        · obtain rfl : ({ year := some _, month := some _ } : ChronoParsed) = p := by
            simpa using h
          rfl
        · exact absurd h (by simp)
    · exact absurd h (by simp)

theorem indexNameDate_none (s : RStr) : indexNameDate s = none := by
  unfold indexNameDate
  cases hp : parseNameBYIndex s with
  | none => rfl
  | some p =>
    have hd : p.day = none := parseNameBYIndex_day_none s p hp
    obtain ⟨y, m, d⟩ := p
    obtain rfl : d = none := hd
    cases y <;> cases m <;> rfl

theorem indexCmp_eq_name_cmp (a b : Index) : indexCmp a b = cmpCharList a.name b.name := by
  unfold indexCmp
  rw [indexNameDate_none, indexNameDate_none]

theorem indexLe_iff (a b : Index) : indexLe a b = true ↔ cmpCharList a.name b.name ≠ .gt := by
  simp [indexLe, indexCmp_eq_name_cmp]

theorem indexLe_refl (a : Index) : indexLe a a = true := by
  rw [indexLe_iff, cmpCharList_refl]
  simp

theorem indexLe_trans : ∀ a b c : Index,
    indexLe a b = true → indexLe b c = true → indexLe a c = true := by
  intro a b c h1 h2
  rw [indexLe_iff] at h1 h2 ⊢
  exact cmpCharList_le_trans a.name b.name c.name h1 h2

theorem indexLe_total : ∀ a b : Index, (indexLe a b || indexLe b a) = true := by
  intro a b
  by_cases h : cmpCharList a.name b.name = .gt
  · have hba : cmpCharList b.name a.name = .lt := by
      rw [cmpCharList_swap, h]
      rfl
    have h2 : indexLe b a = true := (indexLe_iff b a).mpr (by rw [hba]; simp)
    simp [h2]
  · simp [(indexLe_iff a b).mpr h]

/-! ## Further helper lemmas for the claim theorems -/

/-- The first space-separated token of a cluster-index line (`url_time[0]`,
the reversed-key-plus-path part), as read by `parse_idx_entry`. -/
def clusterKeyToken (line : RStr) : RStr :=
  part0 (splitOnChar ' ' (part0 (splitOnChar '\t' line)))

theorem clusterHostDecode_spec (t : RStr) :
    (clusterHostDecode t = none ∧ (part0 (clusterKeyComponents t)).all rustIsNumeric = true) ∨
    (clusterHostDecode t = some (joinWith ['.'] (clusterKeyComponents t).reverse) ∧
      (part0 (clusterKeyComponents t)).all rustIsNumeric = false) := by
  by_cases hb : (part0 (clusterKeyComponents t)).all rustIsNumeric = true
  · left
    exact ⟨by simp [clusterHostDecode, hb], hb⟩
  · right
    exact ⟨by simp [clusterHostDecode, hb], by simpa using hb⟩

theorem warcScan_isSome (pIp : RStr → Option IpAddr) (host tss : RStr) :
    ∀ lines : List RStr,
      (∀ l ∈ lines, rstrStarts l "WARC-IP-Address".toList = true →
        ((splitOnSeq ": ".toList l)[1]?).isSome = true) →
      (warcScan pIp host tss lines).isSome = true := by
  intro lines
  induction lines with
  | nil => intro _; simp [warcScan]
  | cons line rest ih =>
    intro hsep
    unfold warcScan
    split
    · next hstart =>
      obtain ⟨v, hv⟩ := Option.isSome_iff_exists.mp (hsep line (by simp) hstart)
      rw [hv]
      show (match pIp v with
        | some addr => some (some (MappingEntry.mk host tss addr))
        | none => warcScan pIp host tss rest).isSome = true
      cases pIp v with
      | some addr => rfl
      | none => exact ih (fun l hl => hsep l (List.mem_cons_of_mem _ hl))
    · exact ih (fun l hl => hsep l (List.mem_cons_of_mem _ hl))

theorem warcScan_none_of_all_fail (pIp : RStr → Option IpAddr) (host tss : RStr) :
    ∀ lines : List RStr,
      (∀ l ∈ lines, rstrStarts l "WARC-IP-Address".toList = true →
        ((splitOnSeq ": ".toList l)[1]?).isSome = true) →
      (∀ l ∈ lines, rstrStarts l "WARC-IP-Address".toList = true →
        ∀ v, (splitOnSeq ": ".toList l)[1]? = some v → pIp v = none) →
      warcScan pIp host tss lines = some none := by
  intro lines
  induction lines with
  | nil => intro _ _; rfl
  | cons line rest ih =>
    intro hsep hfail
    unfold warcScan
    split
    · next hstart =>
      obtain ⟨v, hv⟩ := Option.isSome_iff_exists.mp (hsep line (by simp) hstart)
      rw [hv]
      show (match pIp v with
        | some addr => some (some (MappingEntry.mk host tss addr))
        | none => warcScan pIp host tss rest) = some none
      rw [hfail line (by simp) hstart v hv]
      exact ih (fun l hl => hsep l (List.mem_cons_of_mem _ hl))
        (fun l hl => hfail l (List.mem_cons_of_mem _ hl))
    · exact ih (fun l hl => hsep l (List.mem_cons_of_mem _ hl))
        (fun l hl => hfail l (List.mem_cons_of_mem _ hl))

theorem warcScan_some_of_exists (pIp : RStr → Option IpAddr) (host tss : RStr) :
    ∀ lines : List RStr,
      (∀ l ∈ lines, rstrStarts l "WARC-IP-Address".toList = true →
        ((splitOnSeq ": ".toList l)[1]?).isSome = true) →
      (∃ l ∈ lines, rstrStarts l "WARC-IP-Address".toList = true ∧
        ∃ v, (splitOnSeq ": ".toList l)[1]? = some v ∧ (pIp v).isSome = true) →
      ∃ m : MappingEntry, warcScan pIp host tss lines = some (some m) := by
  intro lines
  induction lines with
  | nil => rintro _ ⟨l, hl, -⟩; exact absurd hl (by simp)
  | cons line rest ih =>
    rintro hsep ⟨l, hl, hstart, v, hv, hip⟩
    unfold warcScan
    split
    · next hstart1 =>
      obtain ⟨v1, hv1⟩ := Option.isSome_iff_exists.mp (hsep line (by simp) hstart1)
      rw [hv1]
      show ∃ m : MappingEntry, (match pIp v1 with
        | some addr => some (some (MappingEntry.mk host tss addr))
        | none => warcScan pIp host tss rest) = some (some m)
      cases hip1 : pIp v1 with
      | some addr => exact ⟨⟨host, tss, addr⟩, rfl⟩
      | none =>
        refine ih (fun l2 hl2 => hsep l2 (List.mem_cons_of_mem _ hl2)) ?_
        rcases List.mem_cons.mp hl with rfl | hl2
        · rw [hv1] at hv
          obtain rfl : v1 = v := by simpa using hv
          rw [hip1] at hip
          simp at hip
        · exact ⟨l, hl2, hstart, v, hv, hip⟩
    · next hstart1 =>
      refine ih (fun l2 hl2 => hsep l2 (List.mem_cons_of_mem _ hl2)) ?_
      rcases List.mem_cons.mp hl with rfl | hl2
      · exact absurd hstart hstart1
      · exact ⟨l, hl2, hstart, v, hv, hip⟩

theorem parse_time_string_invalid_falls_back (now : Date) (f1 : RStr)
    (hlen : 8 ≤ f1.length) (y : Int) (m d : Nat)
    (hy : rustParseI32 (f1.take 4) = some y)
    (hm : rustParseU32 ((f1.drop 4).take 2) = some m)
    (hd : rustParseU32 ((f1.drop 6).take 2) = some d)
    (hv : fromYmdOpt y m d = none) :
    parse_time_string now f1 = some now := by
  unfold parse_time_string
  rw [if_neg (by omega), hy, hm, hd]
  show (match fromYmdOpt y m d with
    | some date => some date
    | none => some now) = some now
  rw [hv]

/-- Evaluation of one `query_host` iteration on a three-field line that
passes the host check, is dated, not yet seen, and whose JSON decodes. -/
theorem processLine_step_full (env : ResolveEnv) (ptr : IndexHostPointer)
    (st : RState) (line f0 f1 j : RStr) (dt : Date) (r : IndexRecord)
    (hsplit : splitOnChar ' ' line = [f0, f1, j])
    (hhost : shardHostDecode f0 = ptr.host)
    (hdate : parse_time_string env.now f1 = some dt)
    (hnotseen : st.futures_times.contains (formatYmd dt) = false)
    (hjson : env.parseRecord (jsonRemainder [f0, f1, j]) = some r) :
    processLine env ptr st line =
      (retrieve_ip env ptr.host (formatYmd dt) r).map (fun mk =>
        { futures_times := formatYmd dt :: st.futures_times,
          records := st.records ++ [r],
          mappings := st.mappings ++ [mk.1],
          trips := st.trips + mk.2 }) := by
  simp only [processLine, hsplit, hhost, part0, List.headD, List.getElem?_cons_succ,
    List.getElem?_cons_zero, hdate, hnotseen, hjson, ne_eq, not_true_eq_false,
    Bool.false_eq_true, if_false, ite_false]
  cases hro : retrieve_ip env ptr.host (formatYmd dt) r with
  | none => rfl
  | some mk =>
    obtain ⟨mp, k⟩ := mk
    rfl

instance : IsTrans Index indexLeq :=
  ⟨fun a b c => indexLe_trans a b c⟩

instance : IsTotal Index indexLeq := by
  constructor
  intro a b
  have := indexLe_total a b
  simpa [indexLeq] using this

/-- `get_newest_index` returns a minimum of the list under `indexLe`. -/
theorem head_of_sorted_is_min (indices : List Index) (i : Index)
    (h : (List.insertionSort indexLeq indices).head? = some i) :
    i ∈ indices ∧ ∀ x ∈ indices, indexLe i x = true := by
  cases hL : List.insertionSort indexLeq indices with
  | nil => rw [hL] at h; exact absurd h (by simp)
  | cons hd tl =>
    rw [hL] at h
    have hi : hd = i := by simpa using h
    subst hi
    have hperm := List.perm_insertionSort indexLeq indices
    have hsorted := List.sorted_insertionSort indexLeq indices
    rw [hL] at hperm hsorted
    constructor
    · exact hperm.mem_iff.mp (List.mem_cons_self _ _)
    · intro x hx
      have hx2 : x ∈ hd :: tl := hperm.symm.mem_iff.mp hx
      rcases List.mem_cons.mp hx2 with hx1 | hx3
      · rw [hx1]
        exact indexLe_refl hd
      · exact (List.pairwise_cons.mp hsorted).1 x hx3

/-! ## Concrete fixtures for the witnesses and counterexamples -/

/-- One octet of a dotted-quad IPv4 literal (the `Ipv4Addr` grammar: 1-3
decimal digits, no redundant leading zero, value at most 255). -/
def parseOctet (s : RStr) : Option Nat :=
  match s with
  | [] => none
  | ['0'] => some 0
  | '0' :: _ :: _ => none
  | cs =>
    if cs.all Char.isDigit ∧ cs.length ≤ 3 then
      let v := cs.foldl (fun a c => a * 10 + (c.toNat - 48)) 0
      if v ≤ 255 then some v else none
    else none

/-- A concrete IPv4-only instantiation of the `str::parse::<IpAddr>` oracle
(`ResolveEnv.parseIp`), used by the concrete runs below.  IPv6 parsing is
left to the oracle in the general theorems. -/
def parseIpModel (s : RStr) : Option IpAddr :=
  match (splitOnChar '.' s).map parseOctet with
  | [some a, some b, some c, some d] => some (.v4 a b c d)
  | _ => none

/-- The example cluster-index line of lib.rs:237 (and of the spec, §8). -/
def exampleIdxLine : RStr :=
  "0,102,126,13:7037)/robots.txt 20201126201142\tcdx-00000.gz\t0\t205505\t1".toList

/-- The same line with a domain key instead of a reversed IP key. -/
def domainIdxLine : RStr :=
  "com,example)/robots.txt 20201126201142\tcdx-00000.gz\t0\t205505\t1".toList

/-- The locator `parse_idx_entry "CC-MAIN-2020-50" domainIdxLine` produces. -/
def domainIdxPointer : IndexHostPointer :=
  ⟨"example.com".toList, 20201126201142,
   "https://data.commoncrawl.org/cc-index/collections/CC-MAIN-2020-50/indexes/cdx-00000.gz".toList,
   0, 205505⟩

/-- Catalog entries with parseable-looking and unparseable display names. -/
def idxMarch2020 : Index :=
  ⟨"CC-MAIN-2020-13".toList, "March 2020 Index".toList, [], []⟩

def idxJune2021 : Index :=
  ⟨"CC-MAIN-2021-25".toList, "June 2021 Index".toList, [], []⟩

def idxSpecialName : Index :=
  ⟨"CC-MAIN-X".toList, "Special Index".toList, [], []⟩

/-- A locator for `example.com` (shard URL/range are irrelevant to the loop). -/
def ptrExampleCom : IndexHostPointer :=
  ⟨"example.com".toList, 20201126201142, [], 0, 205505⟩

/-- Two CDX records with well-formed numeric offset/length fields. -/
def recA : IndexRecord :=
  ⟨"http://example.com/robots.txt".toList, "text/plain".toList, none, "200".toList,
   none, "10".toList, "0".toList, "warc/f0.warc.gz".toList⟩

def recB : IndexRecord :=
  ⟨"http://example.com/robots.txt".toList, "text/plain".toList, none, "200".toList,
   none, "20".toList, "50".toList, "warc/f1.warc.gz".toList⟩

/-- The archive fragment the fetch oracle serves for `recA`. -/
def fragW : List RStr :=
  ["WARC-Type: response".toList, "WARC-IP-Address: 203.0.113.5".toList]

/-- The archive fragment the fetch oracle serves for every other record. -/
def fragB : List RStr := ["WARC-IP-Address: 198.51.100.7".toList]

/-- A concrete resolver environment: JSON oracle decoding the tokens `J0` and
`J1`, the IPv4 parser model, a fetch oracle keyed on the archive URL, and a
fixed wall-clock date. -/
def envW : ResolveEnv :=
  { parseRecord := fun s =>
      if s = "J0".toList then some recA
      else if s = "J1".toList then some recB
      else none,
    parseIp := parseIpModel,
    archiveFetch := fun url _ _ =>
      if url = BASE_URL ++ ['/'] ++ recA.filename then some fragW else some fragB,
    now := ⟨2026, 10, 12⟩ }

/-- Two shard lines for `example.com` sharing the calendar day 2020-11-26. -/
def linesW1 : List RStr :=
  ["com,example)/ 20201126201142 J0".toList,
   "com,example)/ 20201126235959 J1".toList]

/-- Two shard lines for `example.com` on two distinct calendar days. -/
def linesW6 : List RStr :=
  ["com,example)/ 20201126201142 J0".toList,
   "com,example)/ 20201127201142 J1".toList]

/-- A shard line whose 14-digit timestamp has month 13 and day 32. -/
def lineW10 : RStr := "com,example)/ 20201332000000 J0".toList

/-- The entry resolved from the first line of `linesW1`. -/
def mW1 : MappingEntry :=
  ⟨"example.com".toList, "2020-11-26".toList, IpAddr.v4 203 0 113 5⟩

/-- The entry resolved from the second line of `linesW6`. -/
def mW6 : MappingEntry :=
  ⟨"example.com".toList, "2020-11-27".toList, IpAddr.v4 198 51 100 7⟩

/-- The entry resolved from `lineW10` (note the wall-clock date). -/
def mW10 : MappingEntry :=
  ⟨"example.com".toList, "2026-10-12".toList, IpAddr.v4 203 0 113 5⟩

/-- The final loop state on `linesW1`. -/
def stW1 : RState := ⟨["2020-11-26".toList], [recA], [some mW1], 1⟩

/-- The final loop state on `[lineW10]`. -/
def stW10 : RState := ⟨["2026-10-12".toList], [recA], [some mW10], 1⟩

/-! ## Claim theorems -/

/-- **C1.**  For every locator, one `query_host` resolution emits at most one
`MappingEntry` per calendar day: the emitted entries carry pairwise distinct
day strings.  Moreover, when several shard lines for the locator's host share
a day, the first-encountered such line wins: the entry emitted for a day is
exactly the `retrieve_ip` result of the first line that passed the host check
and whose JSON remainder decoded for that day (`firstQual`). -/
theorem query_host_one_ip_per_host_per_day (env : ResolveEnv)
    (ptr : IndexHostPointer) (lines : List RStr) (st : RState)
    (h : query_host env ptr lines = some st) :
    ((st.mappings.filterMap id).Pairwise (fun a b => a.timestr ≠ b.timestr)) ∧
    ∀ m : MappingEntry, some m ∈ st.mappings →
      ∃ r, firstQual env ptr lines m.timestr = some r ∧
        retrieve_ip env ptr.host m.timestr r = some (some m, 1) :=
  ⟨(QInv_query env ptr lines st h).distinct, (QInv_query env ptr lines st h).firstWins⟩

/-- Witness for **C1**: on two same-day shard lines for `example.com`, the
run emits one entry, with distinct days trivially, and that entry is the
`retrieve_ip` result of the first line's record. -/
theorem query_host_one_ip_per_host_per_day_witness :
    ((stW1.mappings.filterMap id).Pairwise (fun a b => a.timestr ≠ b.timestr)) ∧
    ∃ r, firstQual envW ptrExampleCom linesW1 mW1.timestr = some r ∧
      retrieve_ip envW ptrExampleCom.host mW1.timestr r = some (some mW1, 1) :=
  have h := query_host_one_ip_per_host_per_day envW ptrExampleCom linesW1 stW1 (by decide)
  ⟨h.1, h.2 mW1 (by decide)⟩

/-- **C2** (counterexample).  Decoding the spec's example cluster-index line
`0,102,126,13:7037)/robots.txt 20201126201142\tcdx-00000.gz\t0\t205505\t1`
with crawl-index id `CC-MAIN-2020-50` does not yield any `HostLocator`, in
particular none with host `13.126.102.0`: the claim is false on the code. -/
theorem parse_idx_entry_example_line_counterexample :
    ¬ ∃ p : IndexHostPointer,
      parse_idx_entry ("CC-MAIN-2020-50".toList) exampleIdxLine = some (some p) := by
  rintro ⟨p, hp⟩
  have h0 : parse_idx_entry ("CC-MAIN-2020-50".toList) exampleIdxLine = some none := by
    decide
  rw [h0] at hp
  simp at hp

/-- **C2** (amended).  Decoding that example line yields no `HostLocator` at
all: the reversed key's first comma component is `0`, which is all-digits, so
`parse_idx_entry` treats the key as an IP literal and drops the line. -/
theorem parse_idx_entry_example_line_amended :
    parse_idx_entry ("CC-MAIN-2020-50".toList) exampleIdxLine = some none ∧
    (part0 (clusterKeyComponents (clusterKeyToken exampleIdxLine))).all
      rustIsNumeric = true := by
  constructor <;> decide

/-- **C3.**  For every cluster-index line on which `parse_idx_entry` does not
panic: if the reversed key's first comma component is all-digits, no
`HostLocator` is produced; otherwise a locator is produced and its host is
the key's comma components reversed and joined with dots. -/
theorem parse_idx_entry_ip_literal_filter (index_id line : RStr)
    (r : Option IndexHostPointer) (h : parse_idx_entry index_id line = some r) :
    ((part0 (clusterKeyComponents (clusterKeyToken line))).all rustIsNumeric = true →
      r = none) ∧
    ((part0 (clusterKeyComponents (clusterKeyToken line))).all rustIsNumeric = false →
      ∃ p : IndexHostPointer, r = some p ∧
        p.host = joinWith ['.'] (clusterKeyComponents (clusterKeyToken line)).reverse) := by
  simp only [clusterKeyToken]
  simp only [parse_idx_entry] at h
  split at h
  · split at h
    · exact absurd h (by simp)
    · next t1 ht1 =>
      split at h
      · exact absurd h (by simp)
      · next ts hts =>
        split at h
        · next hcd =>
          obtain rfl : (none : Option IndexHostPointer) = r := by simpa using h
          rcases clusterHostDecode_spec
              (part0 (splitOnChar ' ' (part0 (splitOnChar '\t' line)))) with
            ⟨h1, h2⟩ | ⟨h1, h2⟩
          · exact ⟨fun _ => rfl, fun hf => absurd h2 (by simp [hf])⟩
          · rw [hcd] at h1
            exact absurd h1 (by simp)
        · next host hcd =>
          split at h
          · next rs rl hrs hrl =>
            obtain rfl := Option.some.inj h
            rcases clusterHostDecode_spec
                (part0 (splitOnChar ' ' (part0 (splitOnChar '\t' line)))) with
              ⟨h1, h2⟩ | ⟨h1, h2⟩
            · rw [hcd] at h1
              exact absurd h1 (by simp)
            · rw [hcd] at h1
              have hhost :
                  host = joinWith ['.']
                    (clusterKeyComponents
                      (part0 (splitOnChar ' ' (part0 (splitOnChar '\t' line))))).reverse := by
                simpa using h1
              exact ⟨fun ht => absurd h2 (by simp [ht]), fun _ => ⟨_, rfl, hhost⟩⟩
          · exact absurd h (by simp)
  · exact absurd h (by simp)

/-- Witness for **C3**: the domain-key variant of the example line decodes
and its host is the reversed-joined key `example.com`. -/
theorem parse_idx_entry_ip_literal_filter_witness :
    (part0 (clusterKeyComponents (clusterKeyToken domainIdxLine))).all
      rustIsNumeric = false ∧
    ∃ p : IndexHostPointer, (some domainIdxPointer : Option IndexHostPointer) = some p ∧
      p.host = joinWith ['.'] (clusterKeyComponents (clusterKeyToken domainIdxLine)).reverse :=
  ⟨by decide,
   (parse_idx_entry_ip_literal_filter ("CC-MAIN-2020-50".toList) domainIdxLine
      (some domainIdxPointer) (by decide)).2 (by decide)⟩

/-- **C4** (counterexample).  The shard-line host decoding of `query_host` is
*not* identical to the cluster-index rule of `parse_idx_entry`: on the key
`com,example:8080)` the shard rule truncates at `:` and yields `example.com`
while the cluster rule keeps the port and yields `example:8080.com`. -/
theorem shard_host_decode_differs_counterexample :
    shardHostDecode ("com,example:8080)/robots.txt".toList) = "example.com".toList ∧
    clusterHostDecode ("com,example:8080)/robots.txt".toList) =
      some ("example:8080.com".toList) := by
  constructor <;> decide

/-- **C4** (amended).  Every entry emitted by a panic-free `query_host` run
carries exactly the locator's host — a shard line whose recomputed host
differs is discarded without producing an entry.  The recomputation rule
agrees with the §4.2 cluster rule exactly on keys without a `:` (and not
filtered as IP literals); it additionally truncates the key at the first `:`
and never applies the IP-literal filter. -/
theorem query_host_host_recheck_and_discard (env : ResolveEnv)
    (ptr : IndexHostPointer) (lines : List RStr) (st : RState)
    (h : query_host env ptr lines = some st) :
    (∀ m : MappingEntry, some m ∈ st.mappings → m.host = ptr.host) ∧
    (∀ t : RStr, splitOnChar ':' (part0 (splitOnChar ')' t)) = [part0 (splitOnChar ')' t)] →
      (part0 (clusterKeyComponents t)).all rustIsNumeric = false →
      clusterHostDecode t = some (shardHostDecode t)) := by
  refine ⟨(QInv_query env ptr lines st h).hostEq, ?_⟩
  intro t hcolon hnum
  rcases clusterHostDecode_spec t with ⟨h1, h2⟩ | ⟨h1, h2⟩
  · rw [hnum] at h2
    exact absurd h2 (by simp)
  · rw [h1]
    have hs : shardHostDecode t = joinWith ['.'] (clusterKeyComponents t).reverse := by
      unfold shardHostDecode clusterKeyComponents
      rw [hcolon]
      rfl
    rw [hs]

/-- Witness for **C4**: the emitted entry of the `linesW1` run carries the
locator's host, and on the colon-free key `com,example)` the two decoding
rules agree. -/
theorem query_host_host_recheck_and_discard_witness :
    mW1.host = ptrExampleCom.host ∧
    clusterHostDecode ("com,example)/robots.txt".toList) =
      some (shardHostDecode ("com,example)/robots.txt".toList)) :=
  have h := query_host_host_recheck_and_discard envW ptrExampleCom linesW1 stW1 (by decide)
  ⟨h.1 mW1 (by decide), h.2 ("com,example)/robots.txt".toList) (by decide) (by decide)⟩

/-- **C5** (counterexample).  The archive scan of `retrieve_ip` is not total:
on a fragment containing the line `WARC-IP-Address` — it begins with the
IP-address header but has no `": "` separator, e.g. a truncated header — the
indexing `[1]` into the split is out of bounds and the thread panics
(modelled by `none`), rather than soft-dropping the record. -/
theorem warc_ip_scan_panic_counterexample :
    warcScan parseIpModel ("example.com".toList) ("2020-11-26".toList)
      ["WARC-IP-Address".toList] = none := by
  decide

/-- **C5** (amended).  On fragments in which every line beginning with
`WARC-IP-Address` contains the `": "` separator, the scan is total and
soft-failing: it panics on nothing; if some header line's value parses as an
IP address, an entry is emitted; if every header line's value fails to
parse (or no line matches), the result is no entry; and any emitted entry
carries the given host and date and an IP parsed from some header line. -/
theorem warc_ip_scan_soft_behavior (pIp : RStr → Option IpAddr)
    (host tss : RStr) (lines : List RStr)
    (hsep : ∀ l ∈ lines, rstrStarts l "WARC-IP-Address".toList = true →
      ((splitOnSeq ": ".toList l)[1]?).isSome = true) :
    (warcScan pIp host tss lines).isSome = true ∧
    ((∃ l ∈ lines, rstrStarts l "WARC-IP-Address".toList = true ∧
        ∃ v, (splitOnSeq ": ".toList l)[1]? = some v ∧ (pIp v).isSome = true) →
      ∃ m : MappingEntry, warcScan pIp host tss lines = some (some m)) ∧
    ((∀ l ∈ lines, rstrStarts l "WARC-IP-Address".toList = true →
        ∀ v, (splitOnSeq ": ".toList l)[1]? = some v → pIp v = none) →
      warcScan pIp host tss lines = some none) ∧
    (∀ m : MappingEntry, warcScan pIp host tss lines = some (some m) →
      m.host = host ∧ m.timestr = tss ∧
        ∃ l ∈ lines, rstrStarts l "WARC-IP-Address".toList = true ∧
          ∃ v, (splitOnSeq ": ".toList l)[1]? = some v ∧ pIp v = some m.ip) :=
  ⟨warcScan_isSome pIp host tss lines hsep,
   warcScan_some_of_exists pIp host tss lines hsep,
   warcScan_none_of_all_fail pIp host tss lines hsep,
   fun m => warcScan_some_entry pIp host tss lines m⟩

/-- Witness for **C5**: a well-separated fragment carrying `203.0.113.5`
yields an entry. -/
theorem warc_ip_scan_soft_behavior_witness :
    ∃ m : MappingEntry,
      warcScan parseIpModel ("example.com".toList) ("2020-11-26".toList) fragW =
        some (some m) :=
  (warc_ip_scan_soft_behavior parseIpModel ("example.com".toList)
      ("2020-11-26".toList) fragW (by decide)).2.1
    ⟨"WARC-IP-Address: 203.0.113.5".toList, by decide, by decide,
     "203.0.113.5".toList, by decide, by decide⟩

/-- **C6** (counterexample).  A resolution whose shard fragment holds two
distinct days performs three HTTP requests (one shard GET plus one archive
GET per day), not exactly two. -/
theorem query_host_round_trips_counterexample :
    (query_hostFull envW ptrExampleCom (some linesW6)).map Prod.fst = some 3 := by
  decide

/-- **C6** (amended).  A panic-free `resolve` call performs `1 + k`
sequential HTTP requests, where `k` is the number of mapping slots pushed
(one archive range-GET per distinct accepted day); a failed shard fetch
costs the one shard request and returns the empty vector.  The count is two
exactly when one day is accepted, not in general. -/
theorem query_host_round_trip_count (env : ResolveEnv) (ptr : IndexHostPointer) :
    (∀ (lines : List RStr) (n : Nat) (ms : List (Option MappingEntry)),
      query_hostFull env ptr (some lines) = some (n, ms) → n = 1 + ms.length) ∧
    query_hostFull env ptr none = some (1, []) := by
  refine ⟨?_, rfl⟩
  intro lines n ms h
  simp only [query_hostFull] at h
  cases hq : query_host env ptr lines with
  | none => rw [hq] at h; simp at h
  | some st =>
    rw [hq] at h
    obtain ⟨rfl, rfl⟩ : 1 + st.trips = n ∧ st.mappings = ms := by simpa using h
    rw [(QInv_query env ptr lines st hq).tripsEq]

/-- Witness for **C6**: the two-day run makes `1 + 2` requests, and a failed
shard fetch makes one. -/
theorem query_host_round_trip_count_witness :
    3 = 1 + ([some mW1, some mW6] : List (Option MappingEntry)).length ∧
    query_hostFull envW ptrExampleCom none = some (1, []) :=
  ⟨(query_host_round_trip_count envW ptrExampleCom).1 linesW6 3
      [some mW1, some mW6] (by decide),
   (query_host_round_trip_count envW ptrExampleCom).2⟩

/-- **C7.**  The archive byte range requested by `retrieve_ip` ends at
`offset + min(length, 901)`: at `offset + length` when `length ≤ 901` and at
`offset + 901` otherwise. -/
theorem archive_range_end_min_cap (offset length : Int) :
    archiveRangeEnd offset length = offset + min length 901 ∧
    (length ≤ 901 → archiveRangeEnd offset length = offset + length) ∧
    (901 < length → archiveRangeEnd offset length = offset + 901) := by
  unfold archiveRangeEnd
  rcases le_or_lt length 901 with h | h
  · rw [if_neg (not_lt.mpr h), min_eq_left h]
    exact ⟨rfl, fun _ => rfl, fun hc => absurd h (not_le.mpr hc)⟩
  · rw [if_pos h, min_eq_right h.le]
    exact ⟨rfl, fun hc => absurd hc (not_le.mpr h), fun _ => rfl⟩

/-- Witness for **C7**: the cap at work on both sides of 901. -/
theorem archive_range_end_min_cap_witness :
    archiveRangeEnd 37 1000 = 37 + 901 ∧ archiveRangeEnd 37 5 = 37 + 5 :=
  ⟨(archive_range_end_min_cap 37 1000).2.2 (by decide),
   (archive_range_end_min_cap 37 5).2.1 (by decide)⟩

/-- **C8.**  The date branch of `Ord for Index` is dead code:
`NaiveDate::parse_from_str(name, "%B %Y Index")` collects only a month and a
year and never a day-of-month, so it always fails and every comparison falls
back to lexical name comparison.  In particular `March 2020 Index` compares
*greater* than `June 2021 Index` (lexically), although the calendar dates
order the other way — contradicting the documented date ordering. -/
theorem index_ordering_date_parse_never_succeeds :
    (∀ s : RStr, indexNameDate s = none) ∧
    (∀ a b : Index, indexCmp a b = cmpCharList a.name b.name) ∧
    indexCmp idxMarch2020 idxJune2021 = Ordering.gt ∧
    dateCmp ⟨2020, 3, 1⟩ ⟨2021, 6, 1⟩ = Ordering.lt :=
  ⟨indexNameDate_none, indexCmp_eq_name_cmp, by decide, by decide⟩

/-- **C9.**  `get_newest_index` sorts ascending under the `Index` ordering
and returns element 0, i.e. a minimum of the list under that ordering. -/
theorem get_newest_index_returns_minimum (indices : List Index) (i : Index)
    (h : get_newest_index indices = some i) :
    i ∈ indices ∧ ∀ x ∈ indices, indexLe i x = true :=
  head_of_sorted_is_min indices i h

/-- Witness for **C9**: on a mixed catalog the returned element is
`June 2021 Index` — the lexical minimum — and it is `indexLe` every other
entry. -/
theorem get_newest_index_returns_minimum_witness :
    idxJune2021 ∈ [idxMarch2020, idxSpecialName, idxJune2021] ∧
    indexLe idxJune2021 idxSpecialName = true :=
  have h := get_newest_index_returns_minimum
    [idxMarch2020, idxSpecialName, idxJune2021] idxJune2021 (by decide)
  ⟨h.1, h.2 idxSpecialName (by decide)⟩

/-- **C10.**  A host-matching shard line whose 14-digit timestamp slices and
parses but denotes an impossible calendar date is not skipped: the
`Utc::now()` fallback substitutes the current wall-clock date, so the
emitted entry's day is `formatYmd env.now` — a function of when the program
runs, not of the input line. -/
theorem query_host_invalid_date_uses_wallclock (env : ResolveEnv)
    (ptr : IndexHostPointer) (line f0 f1 j : RStr) (y : Int) (mo dy : Nat)
    (r : IndexRecord) (st : RState)
    (hsplit : splitOnChar ' ' line = [f0, f1, j])
    (hhost : shardHostDecode f0 = ptr.host)
    (hlen : 8 ≤ f1.length)
    (hy : rustParseI32 (f1.take 4) = some y)
    (hmo : rustParseU32 ((f1.drop 4).take 2) = some mo)
    (hdy : rustParseU32 ((f1.drop 6).take 2) = some dy)
    (hinvalid : fromYmdOpt y mo dy = none)
    (hjson : env.parseRecord (jsonRemainder [f0, f1, j]) = some r)
    (h : query_host env ptr [line] = some st) :
    st.futures_times = [formatYmd env.now] ∧
    ∀ m : MappingEntry, some m ∈ st.mappings → m.timestr = formatYmd env.now := by
  have hpts : parse_time_string env.now f1 = some env.now :=
    parse_time_string_invalid_falls_back env.now f1 hlen y mo dy hy hmo hdy hinvalid
  have hstep := processLine_step_full env ptr initState line f0 f1 j env.now r
    hsplit hhost hpts rfl hjson
  unfold query_host runLines at h
  rw [hstep] at h
  cases hro : retrieve_ip env ptr.host (formatYmd env.now) r with
  | none =>
    rw [hro] at h
    simp at h
  | some mk =>
    rw [hro] at h
    obtain ⟨mp, k⟩ := mk
    simp only [Option.map_some'] at h
    obtain rfl := Option.some.inj h
    refine ⟨rfl, ?_⟩
    intro m hm
    obtain hmp : some m = mp := by simpa [initState] using hm
    exact ((retrieve_ip_shape env ptr.host (formatYmd env.now) r mp k hro).2 m hmp.symm).2

/-- Witness for **C10**: the month-13/day-32 line resolves to an entry dated
with the fixed wall-clock date of the environment. -/
theorem query_host_invalid_date_uses_wallclock_witness :
    stW10.futures_times = [formatYmd envW.now] ∧ mW10.timestr = formatYmd envW.now :=
  have h := query_host_invalid_date_uses_wallclock envW ptrExampleCom lineW10
    ("com,example)/".toList) ("20201332000000".toList) ("J0".toList)
    2020 13 32 recA stW10 (by decide) (by decide) (by decide) (by decide)
    (by decide) (by decide) (by decide) (by decide) (by decide)
  ⟨h.1, h.2 mW10 (by decide)⟩

end CCMapper
